import Mathlib

/-
Shallow embedding of the Command-Processor header (namespace comp), a
single-header command-line parsing and dispatch library.  The embedding
follows the revision that the claims cite: src/unnamed/part_000 lines
1-534 (classes Option, CommandConfig, CommandArgs, CommandStatus,
CommandCaller, Commander).  C++ strings are Lean Strings, std::vector is
List, unordered_map is an association list queried through lookup,
size_t is Nat (with the size_t maximum written out explicitly where the
source uses std::numeric_limits<size_t>::max()), uint32_t results are
Nat reduced modulo 2^32, and thrown std::runtime_error values are the
error side of Except carrying the exception message.  The parsing loop
of CommandArgs::parse can fail to terminate on some configurations, so
it is embedded with explicit fuel; the fuel budget (one unit per outer
loop iteration, length + 1 units in total) is exhausted exactly on the
non-terminating runs, which surface as a none result.
-/

namespace Comp

/-- Association-list lookup used to model std::unordered_map::find:
returns the mapped value of the first (most recently inserted) matching
key. -/
def lookupList {α : Type} : List (String × α) → String → Option α
  | [], _ => none
  | (k, v) :: rest, key => if k == key then some v else lookupList rest key

/-- Source: comp::Option (the option descriptor: name, variadicSize,
argSize).  Named COption because Option is taken by Lean. -/
structure COption where
  name : String
  variadicSize : Bool
  argSize : Nat
deriving DecidableEq

/-- The local "unknown" sentinel option built at the top of
CommandArgs::parse: name "unknown", argSize set to the size_t maximum,
variadicSize true. -/
def unkOpt : COption :=
  { name := "unknown", variadicSize := true, argSize := 18446744073709551615 }

/-- Source: comp::CommandConfig, a command name plus its option table
(m_options, keyed by option name; CommandConfig::append overwrites on a
duplicate name, modelled by prepending so that lookup sees the latest
entry). -/
structure CommandConfig where
  name : String
  options : List (String × COption)

/-- m_options.find(name) of CommandConfig. -/
def CommandConfig.option? (cfg : CommandConfig) (key : String) : Option COption :=
  lookupList cfg.options key

/-- Source: CommandConfig::has. -/
def CommandConfig.has (cfg : CommandConfig) (key : String) : Bool :=
  (cfg.option? key).isSome

/-- Source: CommandConfig::append (m_options[opt.name()] = opt). -/
def CommandConfig.append (cfg : CommandConfig) (opt : COption) : CommandConfig :=
  { cfg with options := (opt.name, opt) :: cfg.options }

/-- The m_argTable of CommandArgs: option name to space-joined value
string. -/
def Table : Type := List (String × String)

/-- m_argTable.find(name). -/
def Table.find? (tbl : Table) (key : String) : Option String :=
  lookupList tbl key

/-- m_argTable[key] = val (insert or overwrite; prepending makes lookup
return the newest binding). -/
def Table.insert (tbl : Table) (key val : String) : Table :=
  (key, val) :: tbl

/-- Source: CommandArgs::has. -/
def Table.has (tbl : Table) (key : String) : Bool :=
  (Table.find? tbl key).isSome

/-- The value-string accumulation of the inner while loop of
CommandArgs::parse: each consumed token is appended followed by a
single ' ', and the trailing ' ' is popped at the end if the string is
nonempty. -/
def joinTokens (vals : List String) : String :=
  let s := vals.foldl (fun acc v => acc ++ v ++ " ") ""
  if s.data.isEmpty then s else String.mk s.data.dropLast

/-- The inner while loop of CommandArgs::parse: starting from the token
list after the active key, consume tokens while the next token is not a
recognized option of the config and fewer than cap tokens have been
consumed.  Returns (consumed values, remaining tokens). -/
def consumeVals (cfg : CommandConfig) : Nat → List String → List String × List String
  | _, [] => ([], [])
  | cap, a :: rest =>
    if cfg.has a then ([], a :: rest)
    else
      match cap with
      | 0 => ([], a :: rest)
      | cap' + 1 =>
        let pr := consumeVals cfg cap' rest
        (a :: pr.1, pr.2)

/-- The outer for loop of CommandArgs::parse (src/unnamed/part_000
lines 359-400), one fuel unit per iteration.  A token equal to the
command's own name that is not itself an option is skipped; otherwise
the active key is the token when it is a recognized option (consuming
it) or the "unknown" sentinel name (not consuming it); the resolved
option is the config's entry for the key when present, the sentinel
otherwise; values are consumed greedily up to the option's argSize; a
non-variadic option that got fewer than argSize values raises
runtime_error "not enough arguments", else the joined value string is
stored under the key.  none models a run of the C++ loop that never
terminates. -/
def parseLoop (cfg : CommandConfig) : Nat → Table → List String → Option (Except String Table)
  | 0, _, _ => none
  | _ + 1, tbl, [] => some (Except.ok tbl)
  | fuel + 1, tbl, a :: rest =>
    if a == cfg.name && !cfg.has a then
      parseLoop cfg fuel tbl rest
    else
      let key := if cfg.has a then a else unkOpt.name
      let rest1 := if cfg.has a then rest else a :: rest
      let opt :=
        match cfg.option? key with
        | some o => o
        | none => unkOpt
      let pr := consumeVals cfg opt.argSize rest1
      if pr.1.length < opt.argSize && !opt.variadicSize then
        some (Except.error ("not enough arguments \"" ++ key ++ "\""))
      else
        parseLoop cfg fuel (Table.insert tbl key (joinTokens pr.1)) pr.2

/-- CommandArgs::parse run on a whole token segment, starting from the
empty m_argTable.  One outer iteration always consumes at least one
token except in the states where the C++ loop repeats forever, so
length + 1 units of fuel are exhausted exactly on the non-terminating
runs. -/
def CommandArgs.parse (cfg : CommandConfig) (args : List String) : Option (Except String Table) :=
  parseLoop cfg (args.length + 1) ([] : List (String × String)) args

/-- Error taxonomy of the typed accessors of CommandArgs: notFound is
the runtime_error "key ... not found", invalidArgument and outOfRange
are the two exceptions std::stoul can raise. -/
inductive ArgError
  | notFound (key : String)
  | invalidArgument
  | outOfRange
deriving DecidableEq

/-- isspace of the C locale, the whitespace std::stoul skips. -/
def isCSpace (c : Char) : Bool :=
  c == ' ' || c == '\t' || c == '\n' || c == '\x0b' || c == '\x0c' || c == '\r'

/-- Modelled from std::stoul(s) at base 10 on a 64-bit unsigned long:
skip leading whitespace, read an optional sign, then a nonempty run of
decimal digits (trailing text is ignored); no digits raises
invalid_argument, a magnitude above the unsigned long maximum raises
out_of_range, and a leading minus negates the value in unsigned
arithmetic (modulo 2^64). -/
def stoulCore (s : String) : Except ArgError Nat :=
  let cs := s.data.dropWhile isCSpace
  let sgn : Bool × List Char :=
    match cs with
    | '-' :: rest => (true, rest)
    | '+' :: rest => (false, rest)
    | _ => (false, cs)
  let digits := sgn.2.takeWhile Char.isDigit
  if digits.isEmpty then Except.error ArgError.invalidArgument
  else
    let v := digits.foldl (fun acc c => acc * 10 + (c.toNat - 48)) 0
    if 18446744073709551615 < v then Except.error ArgError.outOfRange
    else Except.ok (if sgn.1 then (18446744073709551616 - v) % 18446744073709551616 else v)

/-- Source: CommandArgs::getString(name) (throwing form). -/
def Table.getString (tbl : Table) (key : String) : Except ArgError String :=
  match Table.find? tbl key with
  | none => Except.error (ArgError.notFound key)
  | some v => Except.ok v

/-- Source: CommandArgs::getString(name, defValue). -/
def Table.getStringD (tbl : Table) (key defValue : String) : String :=
  match Table.find? tbl key with
  | none => defValue
  | some v => v

/-- Source: CommandArgs::getUInt(name): the stored string is converted
by std::stoul and the unsigned long result is truncated to uint32_t on
return. -/
def Table.getUInt (tbl : Table) (key : String) : Except ArgError Nat :=
  match Table.find? tbl key with
  | none => Except.error (ArgError.notFound key)
  | some s => (stoulCore s).map (fun v => v % 4294967296)

/-- Source: CommandArgs::getUInt(name, defValue): the default is
returned only when the key is absent; when present the stoul conversion
runs exactly as in the no-default form, so its failures propagate. -/
def Table.getUIntD (tbl : Table) (key : String) (defValue : Nat) : Except ArgError Nat :=
  match Table.find? tbl key with
  | none => Except.ok defValue
  | some s => (stoulCore s).map (fun v => v % 4294967296)

/-- The std::getline(ss, val, ' ') loop of CommandArgs::getStrVec on
the character list of the stored string: a token is the run up to the
next ' '; hitting the delimiter with an empty remainder or hitting the
end of the stream ends the loop (so a trailing delimiter yields no
extra empty token, matching getline's failure at end of stream). -/
def splitGo (acc : List Char) : List Char → List (List Char)
  | [] => [acc.reverse]
  | c :: rest =>
    if c == ' ' then
      match rest with
      | [] => [acc.reverse]
      | _ :: _ => acc.reverse :: splitGo [] rest
    else
      splitGo (c :: acc) rest

/-- The full getline split: an empty stored string yields no tokens at
all (the first getline fails immediately). -/
def splitSpaces (s : String) : List String :=
  if s.data.isEmpty then [] else (splitGo [] s.data).map String.mk

/-- Source: CommandArgs::getStrVec(name, throwEx): missing key either
raises "key ... not found" or yields the empty vector; a present value
is split at single spaces by the getline loop. -/
def Table.getStrVec (tbl : Table) (key : String) (throwEx : Bool) : Except ArgError (List String) :=
  match Table.find? tbl key with
  | none =>
    if throwEx then Except.error (ArgError.notFound key) else Except.ok []
  | some v => Except.ok (splitSpaces v)

/-- Source: comp::CommandStatus::Status (enum { ERROR, OK }). -/
inductive StatusCode
  | error
  | ok
deriving DecidableEq

/-- Source: comp::CommandStatus (command name, status, message). -/
structure CommandStatus where
  name : String
  status : StatusCode
  msg : String
deriving DecidableEq

/-- Source: comp::CommandCaller: a CommandConfig plus the stored
invocable (function pointer or bound method, both of shape
CommandArgs -> CommandStatus, modelled as one function receiving the
parsed argument table). -/
structure CommandCaller where
  config : CommandConfig
  callback : Table → CommandStatus

/-- Source: CommandCaller::invoke(args): construct CommandArgs(args,
m_config) - which runs CommandArgs::parse and may throw - then apply
the stored invocable to the parse result. -/
def CommandCaller.invoke (cc : CommandCaller) (args : List String) : Option (Except String CommandStatus) :=
  match CommandArgs.parse cc.config args with
  | none => none
  | some (Except.error e) => some (Except.error e)
  | some (Except.ok tbl) => some (Except.ok (cc.callback tbl))

/-- Source: comp::Commander: the registered command table m_commands
(name to CommandCaller). -/
structure Commander where
  commands : List (String × CommandCaller)

/-- m_commands.find / m_commands.at lookup. -/
def Commander.findCaller (c : Commander) (name : String) : Option CommandCaller :=
  lookupList c.commands name

/-- Source: Commander::isCommand. -/
def Commander.isCommand (c : Commander) (val : String) : Bool :=
  (c.findCaller val).isSome

/-- Source: Commander::appendCommand
(m_commands[caller.config().name()] = caller). -/
def Commander.appendCommand (c : Commander) (caller : CommandCaller) : Commander :=
  { commands := (caller.config.name, caller) :: c.commands }

/-- Source: Commander::invokeCommand(command, args) =
m_commands.at(command).invoke(args); a missing name makes .at throw
std::out_of_range. -/
def Commander.invokeCommand (c : Commander) (command : String) (args : List String) : Option (Except String CommandStatus) :=
  match c.findCaller command with
  | none => some (Except.error "invalid unordered_map<K, T> key")
  | some caller => caller.invoke args

/-- The for loop inside the try block of Commander::run
(src/unnamed/part_000 lines 478-507), one fuel unit per outer
iteration.  A registered leading token opens a segment of that token
plus all following tokens up to the next registered token, which is
handed to invokeCommand and its status to the handler; an unregistered
token yields one ERROR "not a command" status and breaks the loop.  The
result is the list of statuses handed to m_handler together with the
exception (current command name, message) escaping the loop, if any;
none models a run whose parse never terminates. -/
def Commander.runLoopF (c : Commander) : Nat → List String → Option (List CommandStatus × Option (String × String))
  | 0, _ => none
  | _ + 1, [] => some ([], none)
  | fuel + 1, a :: rest =>
    if c.isCommand a then
      let seg := a :: rest.takeWhile (fun t => !c.isCommand t)
      let rem := rest.dropWhile (fun t => !c.isCommand t)
      match c.invokeCommand a seg with
      | none => none
      | some (Except.error msg) => some ([], some (a, msg))
      | some (Except.ok st) =>
        match c.runLoopF fuel rem with
        | none => none
        | some (sts, exc) => some (st :: sts, exc)
    else
      some ([⟨a, StatusCode.error, "not a command"⟩], none)

/-- Source: Commander::run(): the try/catch around the segmentation
loop.  An exception escaping the loop is caught and converted into one
final ERROR status, named after the command being processed and
carrying the exception message, handed to the handler.  The returned
list is the full sequence of statuses the StatusHandler receives. -/
def Commander.run (c : Commander) (args : List String) : Option (List CommandStatus) :=
  match c.runLoopF (args.length + 1) args with
  | none => none
  | some (sts, none) => some sts
  | some (sts, some (cmd, msg)) => some (sts ++ [⟨cmd, StatusCode.error, msg⟩])

/-- Source: Commander::run(args) = init(args); run(). -/
def Commander.runOn (c : Commander) (args : List String) : Option (List CommandStatus) :=
  c.run args

/-- The arity-satisfaction hypothesis of the spec's first testable
property, read off the claim: at every position of the segment holding
the name of a non-variadic option of the config, the run of value
tokens that follows (tokens up to the next recognized option or the end
of the segment) is at least the option's declared arity. -/
def arityOk (cfg : CommandConfig) (a : String) (rest : List String) : Bool :=
  match cfg.option? a with
  | some o =>
    o.variadicSize || decide (o.argSize ≤ ((rest.takeWhile (fun t => !cfg.has t)).length))
  | none => true

/-- arityOk at every position of the segment. -/
def aritySatB (cfg : CommandConfig) : List String → Bool
  | [] => true
  | a :: rest => arityOk cfg a rest && aritySatB cfg rest

/-- A command "cmd" with one non-variadic option "o" of arity 1. -/
def cfgBasic : CommandConfig :=
  { name := "cmd", options := [("o", { name := "o", variadicSize := false, argSize := 1 })] }

/-- A command "cmd" with one non-variadic option "o" of arity 2. -/
def cfgArity2 : CommandConfig :=
  { name := "cmd", options := [("o", { name := "o", variadicSize := false, argSize := 2 })] }

/-- A command that declares an option whose name collides with the
parser's "unknown" sentinel key. -/
def cfgUnknownClash : CommandConfig :=
  { name := "cmd",
    options := [("unknown", { name := "unknown", variadicSize := false, argSize := 2 })] }

/-- A command "o" whose own name is also one of its declared options. -/
def cfgSelfOpt : CommandConfig :=
  { name := "o", options := [("o", { name := "o", variadicSize := false, argSize := 1 })] }

/-- A command "cmd" with one variadic option "f" of arity up to 3. -/
def cfgFlag : CommandConfig :=
  { name := "cmd", options := [("f", { name := "f", variadicSize := true, argSize := 3 })] }

/-- A caller for command "cmd1" whose option "o" wants two values. -/
def cexCallerOne : CommandCaller :=
  { config := { name := "cmd1",
                options := [("o", { name := "o", variadicSize := false, argSize := 2 })] },
    callback := fun _ => { name := "cmd1", status := StatusCode.ok, msg := "one" } }

/-- A caller for command "cmd2" with no options. -/
def cexCallerTwo : CommandCaller :=
  { config := { name := "cmd2", options := [] },
    callback := fun _ => { name := "cmd2", status := StatusCode.ok, msg := "two" } }

/-- A dispatcher holding cexCallerOne and cexCallerTwo. -/
def cexCommander : Commander :=
  { commands := [("cmd1", cexCallerOne), ("cmd2", cexCallerTwo)] }

/-- A caller for command "c1" with no options. -/
def okCallerOne : CommandCaller :=
  { config := { name := "c1", options := [] },
    callback := fun _ => { name := "c1", status := StatusCode.ok, msg := "one" } }

/-- A caller for command "c2" with no options. -/
def okCallerTwo : CommandCaller :=
  { config := { name := "c2", options := [] },
    callback := fun _ => { name := "c2", status := StatusCode.ok, msg := "two" } }

/-- A dispatcher holding okCallerOne and okCallerTwo. -/
def okCommander : Commander :=
  { commands := [("c1", okCallerOne), ("c2", okCallerTwo)] }

/-- A dispatcher with no registered commands. -/
def emptyCommander : Commander :=
  { commands := [] }

theorem find?_insert_self (tbl : Table) (k v : String) :
    Table.find? (Table.insert tbl k v) k = some v := by
  simp [Table.insert, Table.find?, lookupList]

theorem find?_insert_isSome (tbl : Table) (k v k' : String)
    (h : (Table.find? tbl k').isSome = true) :
    (Table.find? (Table.insert tbl k v) k').isSome = true := by
  by_cases hk : k == k' <;> simp [Table.insert, Table.find?, lookupList, hk] at h ⊢
  exact h

theorem consumeVals_nil (cfg : CommandConfig) (cap : Nat) :
    consumeVals cfg cap ([] : List String) = ([], []) := by
  cases cap <;> rfl

theorem consumeVals_head_prop (cfg : CommandConfig) (cap : Nat) (a : String) (l : List String)
    (ha : cfg.has a = true) : consumeVals cfg cap (a :: l) = ([], a :: l) := by
  cases cap <;> rw [consumeVals.eq_def] <;> simp [ha]

theorem consumeVals_cons_val (cfg : CommandConfig) (cap : Nat) (a : String) (l : List String)
    (ha : cfg.has a = false) :
    consumeVals cfg (cap + 1) (a :: l)
      = (a :: (consumeVals cfg cap l).1, (consumeVals cfg cap l).2) := by
  rw [consumeVals.eq_def]
  simp [ha]

theorem consumeVals_zero (cfg : CommandConfig) : ∀ (l : List String),
    consumeVals cfg 0 l = ([], l) := by
  intro l
  cases l with
  | nil => rfl
  | cons a rest =>
    rw [consumeVals.eq_def]
    cases ha : cfg.has a <;> simp [ha]

theorem consumeVals_split (cfg : CommandConfig) : ∀ (l : List String) (cap : Nat),
    (consumeVals cfg cap l).1 ++ (consumeVals cfg cap l).2 = l := by
  intro l
  induction l with
  | nil => intro cap; simp [consumeVals_nil]
  | cons a rest ih =>
    intro cap
    cases ha : cfg.has a with
    | true => simp [consumeVals_head_prop cfg cap a rest ha]
    | false =>
      cases cap with
      | zero => simp [consumeVals_zero]
      | succ cap' => simp [consumeVals_cons_val cfg cap' a rest ha, ih]

theorem consumeVals_length (cfg : CommandConfig) : ∀ (l : List String) (cap : Nat),
    ((consumeVals cfg cap l).1).length
      = min cap ((l.takeWhile (fun t => !cfg.has t)).length) := by
  intro l
  induction l with
  | nil => intro cap; simp [consumeVals_nil]
  | cons a rest ih =>
    intro cap
    cases ha : cfg.has a with
    | true => simp [consumeVals_head_prop cfg cap a rest ha, List.takeWhile, ha]
    | false =>
      cases cap with
      | zero => simp [consumeVals_zero]
      | succ cap' =>
        simp [consumeVals_cons_val cfg cap' a rest ha, List.takeWhile, ha, ih,
          Nat.succ_min_succ]

theorem consumeVals_mem (cfg : CommandConfig) : ∀ (l : List String) (cap : Nat) (t : String),
    t ∈ (consumeVals cfg cap l).1 → cfg.has t = false := by
  intro l
  induction l with
  | nil => intro cap t ht; simp [consumeVals_nil] at ht
  | cons a rest ih =>
    intro cap t ht
    cases ha : cfg.has a with
    | true => simp [consumeVals_head_prop cfg cap a rest ha] at ht
    | false =>
      cases cap with
      | zero => simp [consumeVals_zero] at ht
      | succ cap' =>
        simp [consumeVals_cons_val cfg cap' a rest ha] at ht
        cases ht with
        | inl h => exact h ▸ ha
        | inr h => exact ih cap' t h

theorem consumeVals_take_drop (cfg : CommandConfig) : ∀ (l : List String) (cap : Nat),
    cap ≤ ((l.takeWhile (fun t => !cfg.has t)).length) →
    consumeVals cfg cap l = (l.take cap, l.drop cap) := by
  intro l
  induction l with
  | nil => intro cap h; simp at h; simp [h, consumeVals_nil]
  | cons a rest ih =>
    intro cap h
    cases ha : cfg.has a with
    | true =>
      simp [List.takeWhile, ha] at h
      simp [h, consumeVals_zero]
    | false =>
      cases cap with
      | zero => simp [consumeVals_zero]
      | succ cap' =>
        simp [List.takeWhile, ha] at h
        rw [consumeVals_cons_val cfg cap' a rest ha, ih cap' h]
        simp

theorem aritySatB_append (cfg : CommandConfig) : ∀ (l1 l2 : List String),
    aritySatB cfg (l1 ++ l2) = true → aritySatB cfg l2 = true := by
  intro l1
  induction l1 with
  | nil => intro l2 h; exact h
  | cons a l1' ih =>
    intro l2 h
    simp [aritySatB] at h
    exact ih l2 h.2

theorem parseLoop_succ_nil (cfg : CommandConfig) (fuel : Nat) (tbl : Table) :
    parseLoop cfg (fuel + 1) tbl [] = some (Except.ok tbl) := rfl

theorem parseLoop_cons_skip (cfg : CommandConfig) (fuel : Nat) (tbl : Table)
    (a : String) (rest : List String) (hname : a = cfg.name) (ha : cfg.has a = false) :
    parseLoop cfg (fuel + 1) tbl (a :: rest) = parseLoop cfg fuel tbl rest := by
  subst hname
  rw [parseLoop.eq_def]
  simp [ha]

theorem parseLoop_cons_key (cfg : CommandConfig) (fuel : Nat) (tbl : Table)
    (a : String) (rest : List String) (o : COption) (ho : cfg.option? a = some o) :
    parseLoop cfg (fuel + 1) tbl (a :: rest) =
      if ((consumeVals cfg o.argSize rest).1.length < o.argSize && !o.variadicSize) = true then
        some (Except.error ("not enough arguments \"" ++ a ++ "\""))
      else
        parseLoop cfg fuel
          (Table.insert tbl a (joinTokens (consumeVals cfg o.argSize rest).1))
          (consumeVals cfg o.argSize rest).2 := by
  have ha : cfg.has a = true := by simp [CommandConfig.has, ho]
  rw [parseLoop.eq_def]
  simp [ha, ho]

theorem parseLoop_cons_unk (cfg : CommandConfig) (fuel : Nat) (tbl : Table)
    (a : String) (rest : List String) (ha : cfg.has a = false)
    (hne : (a == cfg.name) = false) (hu : cfg.has "unknown" = false) :
    parseLoop cfg (fuel + 1) tbl (a :: rest) =
      parseLoop cfg fuel
        (Table.insert tbl "unknown" (joinTokens (consumeVals cfg unkOpt.argSize (a :: rest)).1))
        (consumeVals cfg unkOpt.argSize (a :: rest)).2 := by
  have hnone : cfg.option? "unknown" = none := by
    simp [CommandConfig.has] at hu
    simpa [Option.isSome_iff_exists] using hu
  rw [parseLoop.eq_def]
  simp [ha, hne, hnone, unkOpt]

/-- The inductive heart of the parser safety property: on a config that
does not declare an option named "unknown", and a token list whose
non-variadic option occurrences all have enough trailing value tokens,
the parse loop terminates without an error, only adds bindings to the
table, and ends with a binding for every recognized option token of the
list. -/
theorem parseLoop_ok (cfg : CommandConfig) (hUnk : cfg.has "unknown" = false) :
    ∀ (fuel : Nat) (l : List String) (tbl : Table), l.length < fuel → aritySatB cfg l = true →
    ∃ tbl', parseLoop cfg fuel tbl l = some (Except.ok tbl') ∧
      (∀ k, (Table.find? tbl k).isSome = true → (Table.find? tbl' k).isSome = true) ∧
      (∀ t, t ∈ l → cfg.has t = true → (Table.find? tbl' t).isSome = true) := by
  intro fuel
  induction fuel with
  | zero => intro l tbl hlen; exact absurd hlen (Nat.not_lt_zero _)
  | succ fuel ih =>
    intro l tbl hlen hsat
    cases l with
    | nil =>
      refine ⟨tbl, rfl, fun k hk => hk, ?_⟩
      intro t ht
      simp at ht
    | cons a rest =>
      have hlen' : rest.length < fuel := by
        simpa using Nat.lt_of_succ_lt_succ hlen
      have hsat' : aritySatB cfg rest = true := by
        simp [aritySatB] at hsat
        exact hsat.2
      have harity : arityOk cfg a rest = true := by
        simp [aritySatB] at hsat
        exact hsat.1
      cases ha : cfg.has a with
      | false =>
        cases hne : a == cfg.name with
        | true =>
          have haeq : a = cfg.name := by simpa using hne
          rw [parseLoop_cons_skip cfg fuel tbl a rest haeq ha]
          obtain ⟨tbl', he, hmono, hmem⟩ := ih rest tbl hlen' hsat'
          refine ⟨tbl', he, hmono, ?_⟩
          intro t ht hp
          rcases List.mem_cons.mp ht with h | h
          · rw [h] at hp
            rw [hp] at ha
            cases ha
          · exact hmem t h hp
        | false =>
          rw [parseLoop_cons_unk cfg fuel tbl a rest ha hne hUnk]
          have hbig : unkOpt.argSize = 18446744073709551614 + 1 := by norm_num [unkOpt]
          rw [hbig, consumeVals_cons_val cfg _ a rest ha]
          have hsplit := consumeVals_split cfg rest 18446744073709551614
          have hlen2 : (consumeVals cfg 18446744073709551614 rest).2.length < fuel := by
            have hle : (consumeVals cfg 18446744073709551614 rest).2.length ≤ rest.length := by
              conv_rhs => rw [← hsplit]
              simp
            exact Nat.lt_of_le_of_lt hle hlen'
          have hsat2 : aritySatB cfg (consumeVals cfg 18446744073709551614 rest).2 = true := by
            refine aritySatB_append cfg (consumeVals cfg 18446744073709551614 rest).1 _ ?_
            rw [hsplit]
            exact hsat'
          obtain ⟨tbl', he, hmono, hmem⟩ :=
            ih (consumeVals cfg 18446744073709551614 rest).2
              (Table.insert tbl "unknown"
                (joinTokens (a :: (consumeVals cfg 18446744073709551614 rest).1)))
              hlen2 hsat2
          refine ⟨tbl', he, ?_, ?_⟩
          · intro k hk
            exact hmono k (find?_insert_isSome tbl "unknown" _ k hk)
          · intro t ht hp
            rcases List.mem_cons.mp ht with h | h
            · rw [h] at hp
              rw [hp] at ha
              cases ha
            · rw [← hsplit] at h
              rcases List.mem_append.mp h with h2 | h2
              · have := consumeVals_mem cfg rest 18446744073709551614 t h2
                rw [hp] at this
                cases this
              · exact hmem t h2 hp
      | true =>
        obtain ⟨o, ho⟩ := Option.isSome_iff_exists.mp ha
        rw [parseLoop_cons_key cfg fuel tbl a rest o ho]
        have herr : ((consumeVals cfg o.argSize rest).1.length < o.argSize
            && !o.variadicSize) = false := by
          cases hv : o.variadicSize with
          | true => simp [hv]
          | false =>
            simp [hv]
            have hr : o.argSize ≤ (rest.takeWhile (fun t => !cfg.has t)).length := by
              simp [arityOk, ho, hv] at harity
              exact harity
            rw [consumeVals_length]
            omega
        rw [herr]
        simp only [Bool.false_eq_true, if_false]
        have hsplit := consumeVals_split cfg rest o.argSize
        have hlen2 : (consumeVals cfg o.argSize rest).2.length < fuel := by
          have hle : (consumeVals cfg o.argSize rest).2.length ≤ rest.length := by
            conv_rhs => rw [← hsplit]
            simp
          exact Nat.lt_of_le_of_lt hle hlen'
        have hsat2 : aritySatB cfg (consumeVals cfg o.argSize rest).2 = true := by
          refine aritySatB_append cfg (consumeVals cfg o.argSize rest).1 _ ?_
          rw [hsplit]
          exact hsat'
        obtain ⟨tbl', he, hmono, hmem⟩ :=
          ih (consumeVals cfg o.argSize rest).2
            (Table.insert tbl a (joinTokens (consumeVals cfg o.argSize rest).1))
            hlen2 hsat2
        refine ⟨tbl', he, ?_, ?_⟩
        · intro k hk
          exact hmono k (find?_insert_isSome tbl a _ k hk)
        · intro t ht hp
          rcases List.mem_cons.mp ht with h | h
          · rw [h]
            refine hmono a ?_
            rw [find?_insert_self]
            rfl
          · rw [← hsplit] at h
            rcases List.mem_append.mp h with h2 | h2
            · have := consumeVals_mem cfg rest o.argSize t h2
              rw [hp] at this
              cases this
            · exact hmem t h2 hp

theorem takeWhile_len_le {α : Type} (p : α → Bool) : ∀ l : List α,
    (l.takeWhile p).length ≤ l.length := by
  intro l
  induction l with
  | nil => simp
  | cons a rest ih =>
    cases hp : p a with
    | true =>
      simp [List.takeWhile, hp]
      exact ih
    | false => simp [List.takeWhile, hp]

theorem runLoopF_cons_cmd (c : Commander) (fuel : Nat) (a : String) (rest : List String)
    (caller : CommandCaller) (st : CommandStatus)
    (hfind : c.findCaller a = some caller)
    (hinv : caller.invoke (a :: rest.takeWhile (fun t => !c.isCommand t))
      = some (Except.ok st)) :
    c.runLoopF (fuel + 1) (a :: rest)
      = match c.runLoopF fuel (rest.dropWhile (fun t => !c.isCommand t)) with
        | none => none
        | some (sts, exc) => some (st :: sts, exc) := by
  have hc : c.isCommand a = true := by simp [Commander.isCommand, hfind]
  rw [Commander.runLoopF.eq_def]
  simp [hc, Commander.invokeCommand, hfind, hinv]

theorem runLoopF_cons_cmd_throw (c : Commander) (fuel : Nat) (a : String)
    (rest : List String) (caller : CommandCaller) (msg : String)
    (hfind : c.findCaller a = some caller)
    (hinv : caller.invoke (a :: rest.takeWhile (fun t => !c.isCommand t))
      = some (Except.error msg)) :
    c.runLoopF (fuel + 1) (a :: rest) = some ([], some (a, msg)) := by
  have hc : c.isCommand a = true := by simp [Commander.isCommand, hfind]
  rw [Commander.runLoopF.eq_def]
  simp [hc, Commander.invokeCommand, hfind, hinv]

theorem runLoopF_cons_notcmd (c : Commander) (fuel : Nat) (a : String)
    (rest : List String) (hc : c.isCommand a = false) :
    c.runLoopF (fuel + 1) (a :: rest)
      = some ([⟨a, StatusCode.error, "not a command"⟩], none) := by
  rw [Commander.runLoopF.eq_def]
  simp [hc]

theorem joinTokens_nil : joinTokens [] = "" := rfl

theorem splitGo_append : ∀ (l acc rest : List Char),
    (∀ ch ∈ l, ch ≠ ' ') → rest ≠ [] →
    splitGo acc (l ++ ' ' :: rest) = (acc.reverse ++ l) :: splitGo [] rest := by
  intro l
  induction l with
  | nil =>
    intro acc rest _ hr
    cases rest with
    | nil => exact absurd rfl hr
    | cons r rs => simp [splitGo]
  | cons ch l' ih =>
    intro acc rest hl hr
    have hch : ch ≠ ' ' := hl ch (List.mem_cons_self ch l')
    have hstep : splitGo acc ((ch :: l') ++ ' ' :: rest)
        = splitGo (ch :: acc) (l' ++ ' ' :: rest) := by
      simp [splitGo, hch]
    rw [hstep, ih (ch :: acc) rest (fun x hx => hl x (List.mem_cons_of_mem ch hx)) hr]
    simp

theorem splitGo_nospace : ∀ (l acc : List Char), (∀ ch ∈ l, ch ≠ ' ') →
    splitGo acc l = [acc.reverse ++ l] := by
  intro l
  induction l with
  | nil => intro acc _; simp [splitGo]
  | cons ch l' ih =>
    intro acc hl
    have hch : ch ≠ ' ' := hl ch (List.mem_cons_self ch l')
    have hstep : splitGo acc (ch :: l') = splitGo (ch :: acc) l' := by
      simp [splitGo, hch]
    rw [hstep, ih (ch :: acc) (fun x hx => hl x (List.mem_cons_of_mem ch hx))]
    simp

theorem string_data_append (s t : String) : (s ++ t).data = s.data ++ t.data := by
  cases s
  cases t
  rfl

theorem joinTokens_three (a b c : String) :
    (joinTokens [a, b, c]).data = a.data ++ ' ' :: (b.data ++ ' ' :: c.data) := by
  have hfold : (("" ++ a ++ " " ++ b ++ " " ++ c ++ " ") : String).data
      = (a.data ++ ' ' :: (b.data ++ ' ' :: c.data)) ++ [' '] := by
    simp [string_data_append]
  simp only [joinTokens, List.foldl]
  rw [hfold]
  have hempty : ((a.data ++ ' ' :: (b.data ++ ' ' :: c.data)) ++ [' ']).isEmpty = false := by
    simp
  simp only [hempty, Bool.false_eq_true, if_false]
  rw [List.dropLast_concat]

/-- Claim C1 (amended: the CommandConfig must not itself declare an
option named "unknown", the parser's sentinel key): for every such
CommandConfig C and every token segment T in which each occurrence of a
non-variadic option of C is followed by at least its declared arity of
value tokens before the next recognized option or the end of the
segment, CommandArgs::parse raises no error, and the resulting values
map contains an entry for every recognized option key of C that appears
in T. -/
theorem claim1_parse_safe (cfg : CommandConfig) (args : List String)
    (hUnk : cfg.has "unknown" = false) (hsat : aritySatB cfg args = true) :
    ∃ tbl, CommandArgs.parse cfg args = some (Except.ok tbl) ∧
      ∀ t ∈ args, cfg.has t = true → (Table.find? tbl t).isSome = true := by
  obtain ⟨tbl', he, _, hmem⟩ :=
    parseLoop_ok cfg hUnk (args.length + 1) args [] (Nat.lt_succ_self _) hsat
  exact ⟨tbl', he, hmem⟩

/-- Claim C1 witness: a well-formed segment for cfgBasic parses without
error and binds every recognized option token that occurs. -/
theorem claim1_witness :
    ∃ tbl, CommandArgs.parse cfgBasic ["cmd", "o", "v", "x"] = some (Except.ok tbl) ∧
      ∀ t ∈ ["cmd", "o", "v", "x"], cfgBasic.has t = true →
        (Table.find? tbl t).isSome = true :=
  claim1_parse_safe cfgBasic ["cmd", "o", "v", "x"] rfl rfl

/-- Claim C1 as stated is false: cfgUnknownClash declares a non-variadic
option named "unknown" with arity 2; the segment ["x"] contains no
occurrence of any option of the config (so the claim's arity hypothesis
holds), yet the loose token "x" is bucketed under the key "unknown",
which resolves to the declared option, and its unmet arity makes the
parse throw. -/
theorem claim1_counterexample :
    aritySatB cfgUnknownClash ["x"] = true ∧
      CommandArgs.parse cfgUnknownClash ["x"]
        = some (Except.error "not enough arguments \"unknown\"") :=
  ⟨rfl, rfl⟩

/-- Claim C2: when the parse loop reaches an occurrence of a
non-variadic option of arity k, then (i) fewer than k trailing value
tokens before the next recognized option or the end of the segment
raise "not enough arguments" naming the option key, (ii) with at least
k trailing value tokens exactly k of them are consumed into the stored
value and the loop continues on the remaining tokens (which are then
handled under the next key or the unknown bucket), and (iii) a segment
ending after exactly k value tokens parses to the table binding the key
to the k joined values. -/
theorem claim2_arity (cfg : CommandConfig) (fuel : Nat) (tbl : Table) (key : String)
    (o : COption) (rest : List String) (ho : cfg.option? key = some o)
    (hv : o.variadicSize = false) :
    ((rest.takeWhile (fun t => !cfg.has t)).length < o.argSize →
      parseLoop cfg (fuel + 2) tbl (key :: rest)
        = some (Except.error ("not enough arguments \"" ++ key ++ "\""))) ∧
    (o.argSize ≤ (rest.takeWhile (fun t => !cfg.has t)).length →
      parseLoop cfg (fuel + 2) tbl (key :: rest)
        = parseLoop cfg (fuel + 1)
            (Table.insert tbl key (joinTokens (rest.take o.argSize)))
            (rest.drop o.argSize)) ∧
    (rest.takeWhile (fun t => !cfg.has t) = rest → rest.length = o.argSize →
      parseLoop cfg (fuel + 2) tbl (key :: rest)
        = some (Except.ok (Table.insert tbl key (joinTokens rest)))) := by
  refine ⟨?_, ?_, ?_⟩
  · intro h
    rw [parseLoop_cons_key cfg (fuel + 1) tbl key rest o ho]
    have hlen : (consumeVals cfg o.argSize rest).1.length
        = (rest.takeWhile (fun t => !cfg.has t)).length := by
      rw [consumeVals_length]
      omega
    have hcond : ((consumeVals cfg o.argSize rest).1.length < o.argSize
        && !o.variadicSize) = true := by
      simp [hv, hlen, h]
    simp [hcond]
  · intro h
    rw [parseLoop_cons_key cfg (fuel + 1) tbl key rest o ho,
      consumeVals_take_drop cfg rest o.argSize h]
    have hr : o.argSize ≤ rest.length :=
      le_trans h (takeWhile_len_le (fun t => !cfg.has t) rest)
    have hlen : (rest.take o.argSize).length = o.argSize := by
      rw [List.length_take]
      omega
    simp [hlen]
  · intro hall hlen
    rw [parseLoop_cons_key cfg (fuel + 1) tbl key rest o ho,
      consumeVals_take_drop cfg rest o.argSize (by rw [hall, hlen])]
    have htake : rest.take o.argSize = rest := by
      rw [← hlen]
      exact List.take_length rest
    have hdrop : rest.drop o.argSize = [] := by
      rw [← hlen]
      exact List.drop_length rest
    have hlen2 : (rest.take o.argSize).length = o.argSize := by
      rw [htake, hlen]
    simp [htake, hdrop, hlen2, parseLoop_succ_nil]
    intro hlt
    exact absurd hlt (by omega)

/-- Claim C2 witness: for the arity-2 option "o" of cfgArity2, one
trailing value throws, three trailing values consume exactly two and
leave the third, and exactly two trailing values parse successfully. -/
theorem claim2_witness :
    (parseLoop cfgArity2 2 [] ["o", "v"]
       = some (Except.error "not enough arguments \"o\"")) ∧
    (parseLoop cfgArity2 2 [] ["o", "v1", "v2", "v3"]
       = parseLoop cfgArity2 1 (Table.insert [] "o" (joinTokens ["v1", "v2"])) ["v3"]) ∧
    (parseLoop cfgArity2 2 [] ["o", "v1", "v2"]
       = some (Except.ok (Table.insert [] "o" (joinTokens ["v1", "v2"])))) :=
  ⟨(claim2_arity cfgArity2 0 [] "o" ⟨"o", false, 2⟩ ["v"] rfl rfl).1 (by decide),
   (claim2_arity cfgArity2 0 [] "o" ⟨"o", false, 2⟩ ["v1", "v2", "v3"] rfl rfl).2.1
     (by decide),
   (claim2_arity cfgArity2 0 [] "o" ⟨"o", false, 2⟩ ["v1", "v2"] rfl rfl).2.2
     (by decide) (by decide)⟩

/-- Claim C4: whenever the segmentation loop inside Commander::run's
try block terminates - with the statuses already delivered to the
handler and possibly an exception escaping the loop - run returns
normally: the catch block converts the escaping exception into one
final ERROR status named after the offending command and carrying the
exception message, delivered to the handler after the earlier statuses,
and nothing propagates out of run. -/
theorem claim4_run_catches (c : Commander) (args : List String)
    (sts : List CommandStatus) (exc : Option (String × String))
    (h : c.runLoopF (args.length + 1) args = some (sts, exc)) :
    c.run args = some (sts ++ (match exc with
      | none => []
      | some (cmd, msg) => [⟨cmd, StatusCode.error, msg⟩])) := by
  cases exc with
  | none => simp [Commander.run, h]
  | some e =>
    cases e with
    | mk cmd msg => simp [Commander.run, h]

/-- Claim C4 witness: on cexCommander the first segment's parse throws
an arity error; run still returns, delivering that failure as an ERROR
status through the handler. -/
theorem claim4_witness :
    cexCommander.run ["cmd1", "o", "v2", "cmd2", "v3"]
      = some [⟨"cmd1", StatusCode.error, "not enough arguments \"o\""⟩] :=
  claim4_run_catches cexCommander ["cmd1", "o", "v2", "cmd2", "v3"] []
    (some ("cmd1", "not enough arguments \"o\"")) rfl

/-- Claim C5: a token equal to the command's own name is skipped by the
parse loop exactly when that name is not a declared option of the
config; when the name is also a declared option, the token is processed
as a normal option occurrence: it becomes the active key and consumes
the following value tokens per its arity. -/
theorem claim5_command_token (cfg : CommandConfig) (fuel : Nat) (tbl : Table)
    (rest : List String) :
    (cfg.has cfg.name = false →
      parseLoop cfg (fuel + 1) tbl (cfg.name :: rest) = parseLoop cfg fuel tbl rest) ∧
    (∀ o : COption, cfg.option? cfg.name = some o →
      o.argSize ≤ (rest.takeWhile (fun t => !cfg.has t)).length →
      parseLoop cfg (fuel + 1) tbl (cfg.name :: rest)
        = parseLoop cfg fuel
            (Table.insert tbl cfg.name (joinTokens (rest.take o.argSize)))
            (rest.drop o.argSize)) := by
  constructor
  · intro h
    exact parseLoop_cons_skip cfg fuel tbl cfg.name rest rfl h
  · intro o ho hr
    rw [parseLoop_cons_key cfg fuel tbl cfg.name rest o ho,
      consumeVals_take_drop cfg rest o.argSize hr]
    have hrl : o.argSize ≤ rest.length :=
      le_trans hr (takeWhile_len_le (fun t => !cfg.has t) rest)
    have hlen : (rest.take o.argSize).length = o.argSize := by
      rw [List.length_take]
      omega
    simp [hlen]

/-- Claim C5 witness: cfgBasic's own name "cmd" is not an option and is
skipped; cfgSelfOpt's own name "o" is a declared arity-1 option, so the
leading "o" becomes the active key and consumes the next value. -/
theorem claim5_witness :
    (parseLoop cfgBasic 2 [] ["cmd"] = parseLoop cfgBasic 1 [] []) ∧
    (parseLoop cfgSelfOpt 2 [] ["o", "v"]
       = parseLoop cfgSelfOpt 1 (Table.insert [] "o" (joinTokens ["v"])) []) :=
  ⟨(claim5_command_token cfgBasic 1 [] []).1 rfl,
   (claim5_command_token cfgSelfOpt 1 [] ["v"]).2 ⟨"o", false, 1⟩ rfl (by decide)⟩

/-- Claim C6: running ["notacommand", "x"] on a dispatcher with no
handler registered under "notacommand" delivers exactly one ERROR
status with message "not a command" (named after the offending token)
to the status handler, and no registered handler is invoked - the run's
whole observable output is that single status. -/
theorem claim6_not_a_command (c : Commander)
    (h : c.isCommand "notacommand" = false) :
    c.run ["notacommand", "x"]
      = some [⟨"notacommand", StatusCode.error, "not a command"⟩] := by
  have e1 : c.runLoopF 3 ["notacommand", "x"]
      = some ([⟨"notacommand", StatusCode.error, "not a command"⟩], none) :=
    runLoopF_cons_notcmd c 2 "notacommand" ["x"] h
  simp [Commander.run, e1]

/-- Claim C6 witness: the empty dispatcher registers nothing, so
"notacommand" is not a command. -/
theorem claim6_witness :
    emptyCommander.run ["notacommand", "x"]
      = some [⟨"notacommand", StatusCode.error, "not a command"⟩] :=
  claim6_not_a_command emptyCommander rfl

/-- Claim C7: getUInt without a default fails with the not-found error
when the key is absent and propagates the stoul failure when the stored
string does not convert; getUInt with a default returns the default
exactly when the key is absent, and when the key is present it behaves
exactly like the no-default form, so conversion failures still
propagate instead of yielding the default. -/
theorem claim7_getUInt (tbl : Table) (key : String) :
    (Table.find? tbl key = none →
      Table.getUInt tbl key = Except.error (ArgError.notFound key)) ∧
    (∀ s e, Table.find? tbl key = some s → stoulCore s = Except.error e →
      Table.getUInt tbl key = Except.error e) ∧
    (∀ d, Table.find? tbl key = none → Table.getUIntD tbl key d = Except.ok d) ∧
    (∀ s d, Table.find? tbl key = some s →
      Table.getUIntD tbl key d = Table.getUInt tbl key) := by
  refine ⟨?_, ?_, ?_, ?_⟩
  · intro h
    simp [Table.getUInt, h]
  · intro s e h1 h2
    simp [Table.getUInt, h1, h2, Except.map]
  · intro d h
    simp [Table.getUIntD, h]
  · intro s d h
    simp [Table.getUIntD, Table.getUInt, h]

/-- Claim C7 witness: the four contract cases at concrete tables. -/
theorem claim7_witness :
    Table.getUInt [] "n" = Except.error (ArgError.notFound "n") ∧
    Table.getUInt [("n", "abc")] "n" = Except.error ArgError.invalidArgument ∧
    Table.getUIntD [] "n" 7 = Except.ok 7 ∧
    Table.getUIntD [("n", "abc")] "n" 7 = Table.getUInt [("n", "abc")] "n" :=
  ⟨(claim7_getUInt [] "n").1 rfl,
   (claim7_getUInt [("n", "abc")] "n").2.1 "abc" ArgError.invalidArgument rfl rfl,
   (claim7_getUInt [] "n").2.2.1 7 rfl,
   (claim7_getUInt [("n", "abc")] "n").2.2.2 "abc" 7 rfl⟩

/-- Claim C9: getUInt converts through the 64-bit unsigned stoul and
truncates to 32 bits instead of validating the text as a uint32: any
stored string stoul accepts yields its converted value reduced modulo
2^32; in particular "-1" (negated in unsigned arithmetic) yields
4294967295 and "4294967296" yields 0 - neither fails with a parse
error. -/
theorem claim9_truncation (tbl : Table) (key : String) :
    (∀ s v, Table.find? tbl key = some s → stoulCore s = Except.ok v →
      Table.getUInt tbl key = Except.ok (v % 4294967296)) ∧
    (Table.find? tbl key = some "-1" →
      Table.getUInt tbl key = Except.ok 4294967295) ∧
    (Table.find? tbl key = some "4294967296" →
      Table.getUInt tbl key = Except.ok 0) := by
  refine ⟨?_, ?_, ?_⟩
  · intro s v h1 h2
    simp [Table.getUInt, h1, h2, Except.map]
  · intro h
    simp only [Table.getUInt, h]
    rfl
  · intro h
    simp only [Table.getUInt, h]
    rfl

/-- Claim C9 witness: the two wrap-around examples evaluated on
concrete tables. -/
theorem claim9_witness :
    Table.getUInt [("n", "-1")] "n" = Except.ok 4294967295 ∧
    Table.getUInt [("n", "4294967296")] "n" = Except.ok 0 :=
  ⟨(claim9_truncation [("n", "-1")] "n").2.1 rfl,
   (claim9_truncation [("n", "4294967296")] "n").2.2 rfl⟩

/-- Claim C10: an option occurrence that consumes zero value tokens (a
variadic or zero-arity option immediately followed by another
recognized option or the end of the segment) still stores an entry: the
parse loop binds the key to the empty string, after which has(key) is
true, getString(key) returns the empty string, and getStrVec(key)
returns the empty sequence, not a sequence holding one empty string. -/
theorem claim10_zero_values (cfg : CommandConfig) (fuel : Nat) (tbl : Table)
    (key : String) (o : COption) (rest : List String)
    (ho : cfg.option? key = some o)
    (hv : o.variadicSize = true ∨ o.argSize = 0)
    (hz : rest = [] ∨ (∃ b rest', rest = b :: rest' ∧ cfg.has b = true) ∨ o.argSize = 0) :
    parseLoop cfg (fuel + 1) tbl (key :: rest)
      = parseLoop cfg fuel (Table.insert tbl key "") rest ∧
    Table.has (Table.insert tbl key "") key = true ∧
    Table.getString (Table.insert tbl key "") key = Except.ok "" ∧
    Table.getStrVec (Table.insert tbl key "") key false = Except.ok ([] : List String) := by
  have hcons : consumeVals cfg o.argSize rest = ([], rest) := by
    rcases hz with h | h | h
    · rw [h]
      exact consumeVals_nil cfg _
    · obtain ⟨b, rest', hb, hp⟩ := h
      rw [hb]
      exact consumeVals_head_prop cfg _ b rest' hp
    · rw [h]
      exact consumeVals_zero cfg rest
  refine ⟨?_, ?_, ?_, ?_⟩
  · rw [parseLoop_cons_key cfg fuel tbl key rest o ho, hcons]
    have herr : ((([] : List String).length < o.argSize) && !o.variadicSize) = false := by
      rcases hv with h | h
      · simp [h]
      · simp [h]
    simp only [herr, Bool.false_eq_true, if_false, joinTokens_nil]
  · simp [Table.has, find?_insert_self]
  · simp [Table.getString, find?_insert_self]
  · simp [Table.getStrVec, find?_insert_self, splitSpaces]

theorem string_mk_data (s : String) : String.mk s.data = s := rfl

/-- Claim C3 (amended: additionally, each segment's invocation must
succeed, i.e. parsing the segment against its command's config raises
no error - otherwise the caught failure yields a single ERROR status
and the run stops): for a dispatcher with handlers under distinct names
cmd1 and cmd2 and tokens [cmd1, v1, v2, cmd2, v3] whose value tokens
are not registered command names, run invokes cmd1's handler on the
segment [cmd1, v1, v2] and cmd2's handler on the segment [cmd2, v3],
and the status handler receives exactly their two statuses, cmd1's
first and cmd2's second. -/
theorem claim3_two_segments (c : Commander) (cmd1 v1 v2 cmd2 v3 : String)
    (caller1 caller2 : CommandCaller) (s1 s2 : CommandStatus)
    (hd : cmd1 ≠ cmd2)
    (h1 : c.findCaller cmd1 = some caller1)
    (h2 : c.findCaller cmd2 = some caller2)
    (hv1 : c.isCommand v1 = false) (hv2 : c.isCommand v2 = false)
    (hv3 : c.isCommand v3 = false)
    (hi1 : caller1.invoke [cmd1, v1, v2] = some (Except.ok s1))
    (hi2 : caller2.invoke [cmd2, v3] = some (Except.ok s2)) :
    c.run [cmd1, v1, v2, cmd2, v3] = some [s1, s2] := by
  have hc2 : c.isCommand cmd2 = true := by
    simp [Commander.isCommand, h2]
  have htake1 : List.takeWhile (fun t => !c.isCommand t) [v1, v2, cmd2, v3] = [v1, v2] := by
    simp [List.takeWhile, hv1, hv2, hc2]
  have hdrop1 : List.dropWhile (fun t => !c.isCommand t) [v1, v2, cmd2, v3]
      = [cmd2, v3] := by
    simp [List.dropWhile, hv1, hv2, hc2]
  have htake2 : List.takeWhile (fun t => !c.isCommand t) [v3] = [v3] := by
    simp [List.takeWhile, hv3]
  have hdrop2 : List.dropWhile (fun t => !c.isCommand t) [v3] = ([] : List String) := by
    simp [List.dropWhile, hv3]
  have e2 : c.runLoopF 5 [cmd2, v3]
      = match c.runLoopF 4 (List.dropWhile (fun t => !c.isCommand t) [v3]) with
        | none => none
        | some (sts, exc) => some (s2 :: sts, exc) :=
    runLoopF_cons_cmd c 4 cmd2 [v3] caller2 s2 h2 (by rw [htake2]; exact hi2)
  have e2ok : c.runLoopF 5 [cmd2, v3] = some ([s2], none) := by
    rw [e2, hdrop2]
    rfl
  have e1 : c.runLoopF 6 [cmd1, v1, v2, cmd2, v3]
      = match c.runLoopF 5 (List.dropWhile (fun t => !c.isCommand t) [v1, v2, cmd2, v3]) with
        | none => none
        | some (sts, exc) => some (s1 :: sts, exc) :=
    runLoopF_cons_cmd c 5 cmd1 [v1, v2, cmd2, v3] caller1 s1 h1 (by rw [htake1]; exact hi1)
  have e1ok : c.runLoopF 6 [cmd1, v1, v2, cmd2, v3] = some ([s1, s2], none) := by
    rw [e1, hdrop1, e2ok]
  simp [Commander.run, e1ok]

/-- Claim C3 as stated is false: on cexCommander the value token "o" is
not a registered command name, as the claim requires, but it is an
option of cmd1 demanding two values while its segment supplies one; the
parse throws, the catch delivers a single ERROR status, and cmd2's
handler is never invoked, so the status handler does not receive two
statuses. -/
theorem claim3_counterexample :
    cexCommander.run ["cmd1", "o", "v2", "cmd2", "v3"]
      = some [⟨"cmd1", StatusCode.error, "not enough arguments \"o\""⟩] ∧
    ¬ ∃ s1 s2 : CommandStatus,
      cexCommander.run ["cmd1", "o", "v2", "cmd2", "v3"] = some [s1, s2] := by
  refine ⟨rfl, ?_⟩
  rintro ⟨s1, s2, h⟩
  rw [show cexCommander.run ["cmd1", "o", "v2", "cmd2", "v3"]
      = some [⟨"cmd1", StatusCode.error, "not enough arguments \"o\""⟩] from rfl] at h
  simp at h

/-- Claim C3 witness: two well-behaved handlers on okCommander produce
exactly their two statuses in registration-scan order. -/
theorem claim3_witness :
    okCommander.run ["c1", "a", "b", "c2", "d"]
      = some [⟨"c1", StatusCode.ok, "one"⟩, ⟨"c2", StatusCode.ok, "two"⟩] :=
  claim3_two_segments okCommander "c1" "a" "b" "c2" "d" okCallerOne okCallerTwo
    ⟨"c1", StatusCode.ok, "one"⟩ ⟨"c2", StatusCode.ok, "two"⟩
    (by decide) rfl rfl rfl rfl rfl rfl rfl

/-- Claim C8 (amended: no token may contain a space character and the
last token must be nonempty - a token with an inner space is re-split
at it, and a trailing empty token vanishes because getline fails at the
end of the stream): getStrVec on a value stored by space-joining the
tokens [a, b, c] returns exactly [a, b, c]. -/
theorem claim8_round_trip (a b c : String) (tbl : Table) (key : String)
    (hla : ∀ ch ∈ a.data, ch ≠ ' ') (hlb : ∀ ch ∈ b.data, ch ≠ ' ')
    (hlc : ∀ ch ∈ c.data, ch ≠ ' ') (hc : c ≠ "") :
    Table.getStrVec (Table.insert tbl key (joinTokens [a, b, c])) key false
      = Except.ok [a, b, c] := by
  have hcd : c.data ≠ [] := by
    intro hnil
    apply hc
    cases c with
    | mk d =>
      cases hnil
      rfl
  have hsplit : splitSpaces (joinTokens [a, b, c]) = [a, b, c] := by
    simp only [splitSpaces, joinTokens_three]
    have hne : (a.data ++ ' ' :: (b.data ++ ' ' :: c.data)).isEmpty = false := by
      simp
    simp only [hne, Bool.false_eq_true, if_false]
    rw [splitGo_append a.data [] (b.data ++ ' ' :: c.data) hla (by simp),
      splitGo_append b.data [] c.data hlb hcd,
      splitGo_nospace c.data [] hlc]
    simp [string_mk_data]
  simp [Table.getStrVec, find?_insert_self, hsplit]

/-- Claim C8 as stated is false: joining ["a", "b", ""] stores "a b "
whose trailing space is dropped by the getline loop, so getStrVec
returns ["a", "b"], not the original three-token list. -/
theorem claim8_counterexample :
    Table.getStrVec (Table.insert [] "k" (joinTokens ["a", "b", ""])) "k" false
      = Except.ok ["a", "b"] ∧ (["a", "b"] : List String) ≠ ["a", "b", ""] :=
  ⟨rfl, by decide⟩

/-- Claim C8 witness: three nonempty space-free tokens survive the
round trip. -/
theorem claim8_witness :
    Table.getStrVec (Table.insert [] "k" (joinTokens ["x", "y", "z"])) "k" false
      = Except.ok ["x", "y", "z"] :=
  claim8_round_trip "x" "y" "z" [] "k" (by decide) (by decide) (by decide) (by decide)

/-- Claim C10 witness: the variadic option "f" of cfgFlag at the end of
a segment stores the empty string, and the accessors observe presence,
the empty string, and the empty vector. -/
theorem claim10_witness :
    parseLoop cfgFlag 2 [] ["f"] = parseLoop cfgFlag 1 (Table.insert [] "f" "") [] ∧
    Table.has (Table.insert [] "f" "") "f" = true ∧
    Table.getString (Table.insert [] "f" "") "f" = Except.ok "" ∧
    Table.getStrVec (Table.insert [] "f" "") "f" false = Except.ok ([] : List String) :=
  claim10_zero_values cfgFlag 1 [] "f" ⟨"f", true, 3⟩ [] rfl (Or.inl rfl) (Or.inl rfl)

end Comp
